import Mathlib

/-!
Verification development for the TaskTrackPro heuristic web-scraper.

The Python sources (scraper/scraper.py, scraper/design_elements.py,
scraper/utils.py) are shallowly embedded below.  Conventions:

* A parsed HTML document (BeautifulSoup object) is a list of top-level
  `Node` trees; element attributes are association lists.  BeautifulSoup
  queries (find, find_all, get_text, .string, .text) are modelled as
  pre-order traversals of that tree, which is the document order
  BeautifulSoup reports.
* External library collaborators that the repository does not define are
  passed in as explicit function parameters: `uj` models
  urllib.parse.urljoin, `cssParse` models cssutils.parseString (a style
  sheet is abstracted to its list of rules, each rule a list of
  (property-name, value) declarations), `parse` models BeautifulSoup
  construction, and the fetch outcome (requests.get plus
  raise_for_status) is an `Except` value.
* Python regular expressions appearing in the source are embedded as
  hand-written scanners with the same match/findall semantics (leftmost,
  greedy, non-overlapping); each scanner's doc comment names the pattern
  it implements.  Character classes \w, \d and \s are modelled at ASCII
  precision (non-ASCII code points count as word characters), which is
  exact on every input exercised here.
* Machine strings are lists of `Char`; all recursion is structural (a
  fuel argument bounded by the input length where needed) so that every
  definition evaluates by kernel reduction.
-/

/-! ## Python-style character and string primitives -/

/-- Whitespace for Python's str.strip and the regex class \s:
space, tab, newline, carriage return, vertical tab, form feed,
plus the no-break space U+00A0 (Python strips Unicode spaces). -/
def pyIsSpace (c : Char) : Bool :=
  c = ' ' || c = '\t' || c = '\n' || c = '\r' ||
  c.toNat = 11 || c.toNat = 12 || c.toNat = 160

/-- ASCII lower-casing, matching Python str.lower on ASCII input. -/
def pyLowerChar (c : Char) : Char :=
  if 'A' ≤ c && c ≤ 'Z' then Char.ofNat (c.toNat + 32) else c

def pyLowerStr (s : String) : String := String.mk (s.data.map pyLowerChar)

/-- Python str.strip(): drop leading and trailing whitespace. -/
def pyStripList (cs : List Char) : List Char :=
  ((cs.dropWhile pyIsSpace).reverse.dropWhile pyIsSpace).reverse

def pyStrip (s : String) : String := String.mk (pyStripList s.data)

/-- Does `needle` occur as a contiguous sublist of the haystack?
Models Python's `needle in hay` substring test and regex search for a
literal pattern. -/
def subOccurs (needle : List Char) : List Char → Bool
  | [] => needle.isEmpty
  | c :: cs => needle.isPrefixOf (c :: cs) || subOccurs needle cs

def strContainsSub (hay needle : String) : Bool := subOccurs needle.data hay.data

/-- Case-insensitive substring test; the needles are given lowercase.
Models re.search with re.IGNORECASE for a literal pattern. -/
def strContainsCI (hay : String) (needles : List String) : Bool :=
  needles.any (fun nd => subOccurs nd.data (pyLowerStr hay).data)

def strStartsWith (s pre : String) : Bool := pre.data.isPrefixOf s.data

/-- Python str.split(sep) for a non-empty separator (fuel-driven so that
it evaluates by kernel reduction; the fuel is the string length). -/
def pySplitAux (sep : List Char) : Nat → List Char → List Char → List (List Char)
  | _, acc, [] => [acc.reverse]
  | 0, acc, rest => [acc.reverse ++ rest]
  | fuel + 1, acc, c :: cs =>
    if sep.isPrefixOf (c :: cs) then
      acc.reverse :: pySplitAux sep fuel [] ((c :: cs).drop sep.length)
    else
      pySplitAux sep fuel (c :: acc) cs

def pySplit (s sep : String) : List String :=
  if sep = "" then [s]
  else (pySplitAux sep.data s.data.length [] s.data).map String.mk

/-- Python str.replace(needle, "") — every occurrence of the needle is
removed, scanning left to right and continuing after each removal. -/
def pyRemoveAllAux (needle : List Char) : Nat → List Char → List Char
  | _, [] => []
  | 0, cs => cs
  | fuel + 1, c :: cs =>
    if needle ≠ [] && needle.isPrefixOf (c :: cs) then
      pyRemoveAllAux needle fuel ((c :: cs).drop needle.length)
    else
      c :: pyRemoveAllAux needle fuel cs

def pyRemoveAll (needle s : String) : String :=
  String.mk (pyRemoveAllAux needle.data s.data.length s.data)

def digitsToNat (ds : List Char) : Nat :=
  ds.foldl (fun n c => 10 * n + (c.toNat - 48)) 0

def isHexDigitB (c : Char) : Bool :=
  c.isDigit || ('a' ≤ c && c ≤ 'f') || ('A' ≤ c && c ≤ 'F')

def hexVal (c : Char) : Nat :=
  if c.isDigit then c.toNat - 48
  else if 'a' ≤ c && c ≤ 'f' then c.toNat - 87
  else if 'A' ≤ c && c ≤ 'F' then c.toNat - 55
  else 0

/-- The left and right curly-brace and apostrophe characters. -/
def lbraceChar : Char := Char.ofNat 123
def rbraceChar : Char := Char.ofNat 125
def apostChar : Char := Char.ofNat 39

def isQuoteChar (c : Char) : Bool := c = '"' || c = apostChar

/-! ## The document model (BeautifulSoup collaborator) -/

/-- One node of the parsed HTML tree: an element with tag name,
attribute association list and children, or a text node. -/
inductive Node where
  | elem : String → List (String × String) → List Node → Node
  | text : String → Node

def Node.tagName : Node → String
  | .elem t _ _ => t
  | .text _ => ""

def Node.attrs : Node → List (String × String)
  | .elem _ a _ => a
  | .text _ => []

def Node.children : Node → List Node
  | .elem _ _ c => c
  | .text _ => []

def Node.isElem : Node → Bool
  | .elem _ _ _ => true
  | .text _ => false

/-- Attribute lookup (first binding wins, as the HTML parser keeps the
first occurrence of a duplicated attribute). -/
def Node.attr (n : Node) (key : String) : Option String :=
  ((n.attrs).find? (fun kv => kv.1 = key)).map (·.2)

def Node.attrD (n : Node) (key dflt : String) : String := (n.attr key).getD dflt

mutual
/-- Concatenated text of all descendant text nodes: BeautifulSoup's
get_text() / .text with no separator. -/
def getTextN : Node → String
  | .text s => s
  | .elem _ _ cs => getTextL cs
def getTextL : List Node → String
  | [] => ""
  | n :: ns => getTextN n ++ getTextL ns
end

mutual
/-- All element descendants of a node in pre-order (document order);
the node itself is not included, matching Tag.find_all. -/
def descendantsN : Node → List Node
  | .text _ => []
  | .elem _ _ cs => descendantsL cs
/-- All elements of a node list in pre-order, each followed by its
element descendants. -/
def descendantsL : List Node → List Node
  | [] => []
  | n :: ns => (if n.isElem then [n] else []) ++ descendantsN n ++ descendantsL ns
end

mutual
/-- Structural equality of nodes, modelling BeautifulSoup's Tag
equality (same name, attributes and contents). -/
def beqN : Node → Node → Bool
  | .text s, .text t => s = t
  | .elem t1 a1 c1, .elem t2 a2 c2 => t1 = t2 && a1 = a2 && beqL c1 c2
  | _, _ => false
def beqL : List Node → List Node → Bool
  | [], [] => true
  | a :: as, b :: bs => beqN a b && beqL as bs
  | _, _ => false
end

/-- BeautifulSoup's Tag.string: the single text child of a tag, looking
through a chain of single-child tags. -/
def strOptN : Node → Option String
  | .text s => some s
  | .elem _ _ [.text s] => some s
  | .elem _ _ [c] => strOptN c
  | .elem _ _ _ => none

/-- soup.find_all(predicate): all matching elements in document order. -/
def soupFindAll (soup : List Node) (p : Node → Bool) : List Node :=
  (descendantsL soup).filter p

/-- soup.find(predicate): the first matching element in document order. -/
def soupFind (soup : List Node) (p : Node → Bool) : Option Node :=
  (descendantsL soup).find? p

/-- Tag.find_all(predicate): matching descendants of one element. -/
def Node.findAllIn (n : Node) (p : Node → Bool) : List Node :=
  (descendantsN n).filter p

/-- Tag.find(predicate): first matching descendant of one element. -/
def Node.findIn (n : Node) (p : Node → Bool) : Option Node :=
  (descendantsN n).find? p

def tagIs (n : Node) (t : String) : Bool := n.tagName = t

def tagAmong (n : Node) (ts : List String) : Bool := ts.contains n.tagName

/-- Case-insensitive regex search of a literal-alternation pattern
against an attribute value, as in find_all(class_=re.compile(..., re.I));
the element must carry the attribute.  Needles are given lowercase. -/
def attrMatchesCI (n : Node) (key : String) (needles : List String) : Bool :=
  match n.attr key with
  | some v => needles.any (fun nd => subOccurs nd.data (pyLowerStr v).data)
  | none => false

/-- Case-sensitive variant, for patterns compiled without re.I. -/
def attrMatchesCS (n : Node) (key : String) (needles : List String) : Bool :=
  match n.attr key with
  | some v => needles.any (fun nd => subOccurs nd.data v.data)
  | none => false

/-! ## Regex scanners

Each scanner implements one concrete pattern from the source with
Python re semantics: scanning tries a match at each position from the
left; a successful match is emitted and scanning resumes after it,
otherwise the scan advances one character.  Matchers return the
remaining input after the match together with the emitted value
(the whole match, or the capture group where the pattern has one). -/

/-- Generic findall driver.  The fuel is the input length; every
accepted match consumes at least one character. -/
def scanA {α : Type} (m : List Char → Option (List Char × α)) :
    Nat → List Char → List α
  | 0, _ => []
  | _ + 1, [] => []
  | fuel + 1, c :: cs =>
    match m (c :: cs) with
    | some (rest, a) =>
      if rest.length < (c :: cs).length then a :: scanA m fuel rest
      else a :: scanA m fuel cs
    | none => scanA m fuel cs

def findallWith {α : Type} (m : List Char → Option (List Char × α)) (s : String) :
    List α :=
  scanA m s.data.length s.data

/-- The part of the input consumed by a match that left `rest`. -/
def takeConsumed (cs rest : List Char) : List Char :=
  cs.take (cs.length - rest.length)

/-- Matcher for the hex-colour pattern #(?:[0-9a-fA-F]{3}){1,2}:
greedy, so six hex digits are preferred over three. -/
def matchHexColor (cs : List Char) : Option (List Char × List Char) :=
  match cs with
  | '#' :: rest =>
    let run := rest.takeWhile isHexDigitB
    if 6 ≤ run.length then some (rest.drop 6, '#' :: run.take 6)
    else if 3 ≤ run.length then some (rest.drop 3, '#' :: run.take 3)
    else none
  | _ => none

def findallHex (s : String) : List String := (findallWith matchHexColor s).map String.mk

/-- Matcher for rgb\(\s*(\d+)\s*,\s*(\d+)\s*,\s*(\d+)\s*\); the three
captured digit groups are returned as numbers (Python applies int). -/
def matchRgb (cs : List Char) : Option (List Char × (Nat × Nat × Nat)) :=
  if "rgb(".data.isPrefixOf cs then
    let t0 := (cs.drop 4).dropWhile pyIsSpace
    let d1 := t0.takeWhile Char.isDigit
    if d1 = [] then none else
    match (t0.drop d1.length).dropWhile pyIsSpace with
    | ',' :: t1 =>
      let t1 := t1.dropWhile pyIsSpace
      let d2 := t1.takeWhile Char.isDigit
      if d2 = [] then none else
      match (t1.drop d2.length).dropWhile pyIsSpace with
      | ',' :: t2 =>
        let t2 := t2.dropWhile pyIsSpace
        let d3 := t2.takeWhile Char.isDigit
        if d3 = [] then none else
        match (t2.drop d3.length).dropWhile pyIsSpace with
        | ')' :: t3 => some (t3, (digitsToNat d1, digitsToNat d2, digitsToNat d3))
        | _ => none
      | _ => none
    | _ => none
  else none

/-- Matcher for \s*:\s*([^X]+) where X is the given stop-character set;
returns the capture.  The capture is greedy and must be non-empty. -/
def matchColonCapture (stops : List Char) (cs : List Char) :
    Option (List Char × List Char) :=
  match cs.dropWhile pyIsSpace with
  | ':' :: t1 =>
    let t2 := t1.dropWhile pyIsSpace
    let cap := t2.takeWhile (fun c => !stops.contains c)
    if cap = [] then none else some (t2.drop cap.length, cap)
  | _ => none

/-- Matcher for the custom-property fallback pattern
--NAME(?:-color)?\s*:\s*([^;]+) of extract_colors, for one NAME. -/
def matchCustomProp (name : String) (cs : List Char) :
    Option (List Char × List Char) :=
  let needle := ("--" ++ name).data
  if needle.isPrefixOf cs then
    let t0 := cs.drop needle.length
    (if "-color".data.isPrefixOf t0 then matchColonCapture [';'] (t0.drop 6) else none).orElse
      (fun _ => matchColonCapture [';'] t0)
  else none

def customPropCaptures (name html : String) : List String :=
  (findallWith (matchCustomProp name) html).map String.mk

/-- Matcher for font-family\s*:\s*([^;}]+). -/
def matchFontFamilyDecl (cs : List Char) : Option (List Char × List Char) :=
  if "font-family".data.isPrefixOf cs then
    matchColonCapture [';', rbraceChar] (cs.drop 11)
  else none

/-- Matcher for --(?:font|typography)-family(?:-[a-z]+)?\s*:\s*([^;}]+). -/
def matchCssFontVar (cs : List Char) : Option (List Char × List Char) :=
  let tryTail (t0 : List Char) : Option (List Char × List Char) :=
    (match t0 with
     | '-' :: t1 =>
       let run := t1.takeWhile (fun c => 'a' ≤ c && c ≤ 'z')
       if run = [] then none
       else matchColonCapture [';', rbraceChar] (t1.drop run.length)
     | _ => none).orElse
      (fun _ => matchColonCapture [';', rbraceChar] t0)
  if "--font-family".data.isPrefixOf cs then tryTail (cs.drop 13)
  else if "--typography-family".data.isPrefixOf cs then tryTail (cs.drop 19)
  else none

/-- All positions at which the needle occurs in the haystack. -/
def positionsOf (needle hay : List Char) : List Nat :=
  (List.range (hay.length + 1)).filter (fun p => needle.isPrefixOf (hay.drop p))

/-- Matcher for the tail \s*:\s*(['"])([^'"]+)['"] of the font-face
pattern; the opening and closing quote need not agree. -/
def matchQuotedCapture (cs : List Char) : Option (List Char × List Char) :=
  match cs.dropWhile pyIsSpace with
  | ':' :: t1 =>
    match t1.dropWhile pyIsSpace with
    | q :: t2 =>
      if isQuoteChar q then
        let cap := t2.takeWhile (fun c => !isQuoteChar c)
        if cap = [] then none else
        match t2.drop cap.length with
        | q2 :: t3 => if isQuoteChar q2 then some (t3, cap) else none
        | [] => none
      else none
    | [] => none
  | _ => none

/-- Matcher for @font-face\s*{[^}]+font-family\s*:\s*['"]([^'"]+)['"].
The greedy [^}]+ body backtracks from the longest span, so the latest
occurrence of font-family before the first closing brace is tried
first. -/
def matchFontFace (cs : List Char) : Option (List Char × List Char) :=
  if "@font-face".data.isPrefixOf cs then
    let t0 := (cs.drop 10).dropWhile pyIsSpace
    match t0 with
    | b :: tail =>
      if b = lbraceChar then
        let limit := (tail.takeWhile (fun c => c ≠ rbraceChar)).length
        let cands := ((positionsOf "font-family".data tail).filter
          (fun p => 1 ≤ p && p ≤ limit)).reverse
        cands.findSome? (fun p => matchQuotedCapture (tail.drop (p + 11)))
      else none
    | [] => none
  else none

def fontFaceCaptures (html : String) : List String :=
  (findallWith matchFontFace html).map String.mk

/-! ### Phone and email patterns -/

/-- The separator class [- ] used by the phone patterns. -/
def isPhoneSep (c : Char) : Bool := c = '-' || c = ' '

/-- Consume exactly n digits, as \d{n}. -/
def exactDigits (n : Nat) (cs : List Char) : Option (List Char) :=
  if n ≤ (cs.takeWhile Char.isDigit).length then some (cs.drop n) else none

/-- Greedy [- ]? before a continuation: try with the separator
consumed first, then without. -/
def optSepThen (k : List Char → Option (List Char)) (cs : List Char) :
    Option (List Char) :=
  match cs with
  | c :: t =>
    if isPhoneSep c then (k t).orElse (fun _ => k (c :: t)) else k (c :: t)
  | [] => k []

/-- Matcher for the Israeli phone pattern
(?:\+972[- ]?|0)[2-9]{1}[- ]?\d{7}. -/
def matchPhoneIsrael (cs : List Char) : Option (List Char × List Char) :=
  let core (t : List Char) : Option (List Char) :=
    match t with
    | c :: t1 => if '2' ≤ c && c ≤ '9' then optSepThen (exactDigits 7) t1 else none
    | [] => none
  let viaIntl : Option (List Char) :=
    if "+972".data.isPrefixOf cs then optSepThen core (cs.drop 4) else none
  (viaIntl.orElse (fun _ => match cs with | '0' :: t => core t | _ => none)).map
    (fun rest => (rest, takeConsumed cs rest))

/-- Matcher for the international phone pattern
\+\d{1,3}[- ]?\d{1,4}[- ]?\d{4,}; the bounded digit groups backtrack
from their greedy lengths. -/
def matchPhoneIntl (cs : List Char) : Option (List Char × List Char) :=
  match cs with
  | '+' :: t0 =>
    let d1run := (t0.takeWhile Char.isDigit).length
    (([3, 2, 1].findSome? (fun a =>
      if a ≤ d1run then
        optSepThen (fun t2 =>
          let d2run := (t2.takeWhile Char.isDigit).length
          [4, 3, 2, 1].findSome? (fun b =>
            if b ≤ d2run then
              optSepThen (fun t4 =>
                let d3 := t4.takeWhile Char.isDigit
                if 4 ≤ d3.length then some (t4.drop d3.length) else none)
                (t2.drop b)
            else none)) (t0.drop a)
      else none)).map (fun rest => (rest, takeConsumed cs rest)))
  | _ => none

/-- Matcher for the parenthesised phone pattern
\(\d{3,4}\)\s*\d{3}[- ]?\d{4}. -/
def matchPhoneParen (cs : List Char) : Option (List Char × List Char) :=
  match cs with
  | '(' :: t0 =>
    let run := (t0.takeWhile Char.isDigit).length
    (([4, 3].findSome? (fun n =>
      if n ≤ run then
        match t0.drop n with
        | ')' :: t1 =>
          (exactDigits 3 (t1.dropWhile pyIsSpace)).bind (optSepThen (exactDigits 4))
        | _ => none
      else none)).map (fun rest => (rest, takeConsumed cs rest)))
  | _ => none

/-- Matcher for the dashed phone pattern \d{3}[- ]?\d{3}[- ]?\d{4}. -/
def matchPhoneDashed (cs : List Char) : Option (List Char × List Char) :=
  ((exactDigits 3 cs).bind
    (optSepThen (fun t => (exactDigits 3 t).bind (optSepThen (exactDigits 4))))).map
    (fun rest => (rest, takeConsumed cs rest))

/-- The ordered phone pattern list of the phone-field strategy. -/
def phone_patterns : List (List Char → Option (List Char × List Char)) :=
  [matchPhoneIsrael, matchPhoneIntl, matchPhoneParen, matchPhoneDashed]

/-- Word characters for the regex class \w (ASCII letters, digits and
underscore; non-ASCII code points are counted as word characters,
matching Python's Unicode semantics on the letters appearing here). -/
def pyWordChar (c : Char) : Bool := c.isAlphanum || c = '_' || 128 ≤ c.toNat

/-- The class [\w\.-] used by the email patterns. -/
def emailChar (c : Char) : Bool := pyWordChar c || c = '.' || c = '-'

def isLowerAZ (c : Char) : Bool := 'a' ≤ c && c ≤ 'z'

/-- Matcher for the email pattern [\w\.-]+@[\w\.-]+\.[a-z]{2,}.  The
greedy domain run backtracks to the last dot that is followed by at
least two lowercase letters. -/
def matchEmail (cs : List Char) : Option (List Char × List Char) :=
  let run := cs.takeWhile emailChar
  if run = [] then none else
  match cs.drop run.length with
  | '@' :: t1 =>
    let dom := t1.takeWhile emailChar
    if dom = [] then none else
    (((List.range dom.length).reverse.findSome? (fun p =>
      if dom.getD p ' ' = '.' && 1 ≤ p then
        let lc := (dom.drop (p + 1)).takeWhile isLowerAZ
        if 2 ≤ lc.length then
          some (run ++ '@' :: (dom.take p ++ '.' :: lc))
        else none
      else none)).map (fun matched => (cs.drop matched.length, matched)))
  | _ => none

/-- Matcher for \d{1,2}[:.]\d{2} (a clock time), as searched by the
opening-hours strategy. -/
def matchTime (cs : List Char) : Option (List Char × List Char) :=
  let run := (cs.takeWhile Char.isDigit).length
  (([2, 1].findSome? (fun n =>
    if n ≤ run then
      match cs.drop n with
      | c :: t1 => if c = ':' || c = '.' then exactDigits 2 t1 else none
      | [] => none
    else none)).map (fun rest => (rest, takeConsumed cs rest)))

/-- re.search of the time pattern: does any position match? -/
def hasTimePattern (s : String) : Bool := !(findallWith matchTime s).isEmpty

/-! ## scraper/utils.py -/

/-- utils.is_valid_email: non-empty and matching
re.match(r'^[\w\.-]+@[\w\.-]+\.\w+$', email).  The anchored greedy
pattern is deterministic: the local part is the maximal [\w.-] run
before the mandatory @, the final \w+ is the maximal word run at the
end (one trailing newline is allowed by $), and the character before it
must be a dot; everything between @ and that dot must be [\w.-]. -/
def is_valid_email (email : String) : Bool :=
  if email = "" then false
  else
    let cs := email.data
    let run := cs.takeWhile emailChar
    if run = [] then false else
    match cs.drop run.length with
    | '@' :: t1 =>
      let t1 := if t1.getLast? = some '\n' then t1.dropLast else t1
      let rev := t1.reverse
      let w := rev.takeWhile pyWordChar
      if w = [] then false else
      match rev.drop w.length with
      | '.' :: before =>
        !before.isEmpty && before.all emailChar
      | _ => false
    | _ => false

/-- utils.is_valid_phone: strip the separator characters matched by
re.sub(r'[\s\-\(\)\.]+', '', phone), then require
re.match(r'^\+?[\d]{7,15}$', clean). -/
def is_valid_phone (phone : String) : Bool :=
  if phone = "" then false
  else
    let clean := phone.data.filter
      (fun c => !(pyIsSpace c || c = '-' || c = '(' || c = ')' || c = '.'))
    let ds := match clean with
      | '+' :: t => t
      | t => t
    ds.all Char.isDigit && 7 ≤ ds.length && ds.length ≤ 15

/-- One profile of the catalog (utils.load_profiles). -/
structure Profile where
  profile_name : String
  fields : List String
  mandatory_fields : List String

/-- The built-in default profiles of utils.load_profiles. -/
def law_firm_profile : Profile :=
  { profile_name := "משרד עו\"ד"
    fields := ["שם העסק", "כתובת", "טלפון", "דוא\"ל", "לוגו", "צבעים דומיננטיים",
               "תחומי עיסוק", "צוות", "קישורים לרשתות", "שעות פעילות"]
    mandatory_fields := ["שם העסק", "כתובת", "טלפון"] }

def doctor_profile : Profile :=
  { profile_name := "מרפאה/רופא"
    fields := ["שם העסק", "תחום התמחות", "כתובת", "טלפון", "דוא\"ל", "רופאים",
               "שעות קבלה", "קישורים לרשתות"]
    mandatory_fields := ["שם העסק", "טלפון"] }

def business_profile : Profile :=
  { profile_name := "עסק כללי"
    fields := ["שם העסק", "תחום פעילות", "כתובת", "טלפון", "דוא\"ל", "לוגו",
               "שעות פתיחה", "קישורים לרשתות"]
    mandatory_fields := ["שם העסק"] }

def custom_profile : Profile :=
  { profile_name := "מותאם אישית", fields := [], mandatory_fields := [] }

/-- One field specification of the catalog (utils.load_fields); only
the columns used by the claims are carried: the field name, its
declared type tag, and the profiles that may request it (the example
value and optional validation regex are data the engine never reads). -/
structure FieldSpec where
  field : String
  type : String
  profiles : List String

/-- The built-in default field catalog of utils.load_fields. -/
def default_fields : List FieldSpec :=
  [ { field := "שם העסק", type := "string", profiles := ["law_firm", "doctor", "business"] },
    { field := "טלפון", type := "string", profiles := ["law_firm", "doctor", "business"] },
    { field := "דוא\"ל", type := "email", profiles := ["law_firm", "doctor", "business"] },
    { field := "לוגו", type := "url", profiles := ["law_firm", "business"] },
    { field := "צוות", type := "array", profiles := ["law_firm"] },
    { field := "כתובת", type := "string", profiles := ["law_firm", "doctor", "business"] },
    { field := "שעות פעילות", type := "string", profiles := ["law_firm", "business"] },
    { field := "שעות קבלה", type := "string", profiles := ["doctor"] },
    { field := "שעות פתיחה", type := "string", profiles := ["business"] },
    { field := "תחומי עיסוק", type := "array", profiles := ["law_firm"] },
    { field := "תחום התמחות", type := "string", profiles := ["doctor"] },
    { field := "תחום פעילות", type := "string", profiles := ["business"] },
    { field := "קישורים לרשתות", type := "object", profiles := ["law_firm", "doctor", "business"] },
    { field := "רופאים", type := "array", profiles := ["doctor"] },
    { field := "צבעים דומיננטיים", type := "array", profiles := ["law_firm", "business"] } ]

/-- The type tag the catalog declares for a field name. -/
def fieldTypeOf (f : String) : Option String :=
  (default_fields.find? (fun fs => fs.field = f)).map (·.type)

/-! ## Sorting

Python's list.sort / sorted is a stable sort by a total preorder; any
stable sort computes the same function, so it is embedded as a stable
insertion sort with a boolean comparator. -/

def insertSorted {α : Type} (le : α → α → Bool) (a : α) : List α → List α
  | [] => [a]
  | b :: l => if le a b then a :: b :: l else b :: insertSorted le a l

def sortBy {α : Type} (le : α → α → Bool) : List α → List α
  | [] => []
  | a :: l => insertSorted le a (sortBy le l)

/-- Lexicographic code-point comparison of strings, i.e. Python's
string ordering used by sorted. -/
def charsLeNat : List Char → List Char → Bool
  | [], _ => true
  | _ :: _, [] => false
  | a :: as, b :: bs =>
    if a.toNat < b.toNat then true
    else if b.toNat < a.toNat then false
    else charsLeNat as bs

def strLeB (a b : String) : Bool := charsLeNat a.data b.data

/-! ## scraper/design_elements.py — colours -/

/-- Hex formatting of one channel as Python's format(v, '02x')
(lowercase, zero-padded to at least two digits). -/
def pad2hex (n : Nat) : List Char :=
  let ds := Nat.toDigits 16 n
  if ds.length < 2 then '0' :: ds else ds

/-- Normalisation of an rgb(r,g,b) capture to '#rrggbb' as in
design_elements lines 50 and 63. -/
def rgbToHexStr (rgb : Nat × Nat × Nat) : String :=
  String.mk ('#' :: (pad2hex rgb.1 ++ pad2hex rgb.2.1 ++ pad2hex rgb.2.2))

/-- The style-tag strings considered by extract_colors and
identify_fonts: each style element whose .string is truthy. -/
def styleTagStrings (soup : List Node) : List String :=
  (soupFindAll soup (fun n => tagIs n "style")).filterMap
    (fun n => (strOptN n).bind (fun s => if s = "" then none else some s))

/-- Colours contributed by one CSS declaration: kept only when the
property name contains "color" or "background"; both hex literals and
rgb() notation are captured, the latter normalised to hex. -/
def declColors (nv : String × String) : List String :=
  if strContainsSub nv.1 "color" || strContainsSub nv.1 "background" then
    findallHex nv.2 ++ (findallWith matchRgb nv.2).map rgbToHexStr
  else []

/-- Colours collected from style tags (via the cssutils collaborator)
followed by inline style attributes, in document order
(design_elements lines 30-64). -/
def collectColors (cssParse : String → List (List (String × String)))
    (soup : List Node) : List String :=
  (((styleTagStrings soup).map (fun s =>
      ((cssParse s).map (fun rule => (rule.map declColors).flatten)).flatten)).flatten)
  ++ (((soupFindAll soup (fun n => (n.attr "style").isSome)).map (fun n =>
      let s := n.attrD "style" ""
      findallHex s ++ (findallWith matchRgb s).map rgbToHexStr)).flatten)

def color_blacklist : List String :=
  ["#000", "#000000", "#fff", "#ffffff", "transparent"]

/-- Lines 76-81: lowercase, deduplicate (list(set(..)) is modelled
keeping one occurrence per colour), and drop the blacklist. -/
def filteredColors (cssParse : String → List (List (String × String)))
    (soup : List Node) : List String :=
  (((collectColors cssParse soup).map pyLowerStr).dedup).filter
    (fun c => !(color_blacklist.contains c))

def common_color_names : List String :=
  ["primary", "secondary", "accent", "main", "brand"]

/-- Lines 84-91: hex colours recovered from custom-property
declarations in the raw markup, appended without further filtering. -/
def fallbackColors (html : String) : List String :=
  (common_color_names.map (fun name =>
    (customPropCaptures name html).filterMap
      (fun prop => (findallHex prop).head?.map pyLowerStr))).flatten

def colorsWithFallback (cssParse : String → List (List (String × String)))
    (soup : List Node) (html : String) : List String :=
  let f := filteredColors cssParse soup
  if f.length < 2 then f ++ fallbackColors html else f

/-! ### Perceptual sorting (hue/saturation, exact rational arithmetic) -/

/-- RGB channels of a '#rgb' or '#rrggbb' colour as fractions of 255
(lines 113-121; only those two shapes reach this code). -/
def rgbOfColor (color : String) : ℚ × ℚ × ℚ :=
  let cs := color.data
  if cs.length = 4 then
    ((17 * hexVal (cs.getD 1 '0') : ℚ) / 255,
     (17 * hexVal (cs.getD 2 '0') : ℚ) / 255,
     (17 * hexVal (cs.getD 3 '0') : ℚ) / 255)
  else
    ((16 * hexVal (cs.getD 1 '0') + hexVal (cs.getD 2 '0') : ℚ) / 255,
     (16 * hexVal (cs.getD 3 '0') + hexVal (cs.getD 4 '0') : ℚ) / 255,
     (16 * hexVal (cs.getD 5 '0') + hexVal (cs.getD 6 '0') : ℚ) / 255)

/-- colorsys.rgb_to_hsv, with real (rational) arithmetic in place of
floating point. -/
def rgb_to_hsv (r g b : ℚ) : ℚ × ℚ × ℚ :=
  let maxc := max r (max g b)
  let minc := min r (min g b)
  let v := maxc
  if minc = maxc then (0, 0, v)
  else
    let s := (maxc - minc) / maxc
    let rc := (maxc - r) / (maxc - minc)
    let gc := (maxc - g) / (maxc - minc)
    let bc := (maxc - b) / (maxc - minc)
    let h :=
      if r = maxc then bc - gc
      else if g = maxc then 2 + rc - bc
      else 4 + gc - rc
    let h6 := h / 6
    (h6 - Rat.floor h6, s, v)

def hsvOfColor (c : String) : ℚ × ℚ × ℚ :=
  let rgb := rgbOfColor c
  rgb_to_hsv rgb.1 rgb.2.1 rgb.2.2

def hueOf (c : String) : ℚ := (hsvOfColor c).1
def satOf (c : String) : ℚ := (hsvOfColor c).2.1

/-- Comparator of the first sort: ascending hue (key=lambda x: x[1]). -/
def hueLeB (x y : String × (ℚ × ℚ × ℚ)) : Bool := decide (x.2.1 ≤ y.2.1)

/-- Comparator of the second sort: descending saturation
(key=lambda x: x[2], reverse=True). -/
def satGeB (x y : String × (ℚ × ℚ × ℚ)) : Bool := decide (y.2.2.1 ≤ x.2.2.1)

/-- design_elements.sort_colors_by_distinctiveness: convert to HSV,
sort by hue, seed with the first colour, append the rest sorted by
descending saturation. -/
def sort_colors_by_distinctiveness (colors : List String) : List String :=
  let hsv_colors := colors.map (fun c => (c, hsvOfColor c))
  match sortBy hueLeB hsv_colors with
  | [] => []
  | first :: remaining => first.1 :: (sortBy satGeB remaining).map (·.1)

/-- design_elements.extract_colors (lines 15-98).  The linked-stylesheet
loop of lines 66-71 has an empty body (its only statement is a guarded
continue) and contributes nothing. -/
def extract_colors (cssParse : String → List (List (String × String)))
    (soup : List Node) (html : String) (max_colors : Nat) : List String :=
  let f := colorsWithFallback cssParse soup html
  if 1 < f.length then (sort_colors_by_distinctiveness f).take max_colors
  else f.take max_colors

/-! ## scraper/design_elements.py — fonts -/

/-- re.sub(r':[^,]+', '', family): every colon that is followed by at
least one non-comma character is removed together with the following
run of non-comma characters (the run stops at the first comma).  The
boolean flag is true while inside such a run. -/
def stripColonAux : Bool → List Char → List Char
  | _, [] => []
  | true, c :: rest =>
    if c = ',' then c :: stripColonAux false rest else stripColonAux true rest
  | false, ':' :: c :: rest =>
    if c = ',' then ':' :: stripColonAux false (c :: rest)
    else stripColonAux true rest
  | false, c :: rest => c :: stripColonAux false rest

/-- Cleaning of one Google-Fonts family entry (lines 228-231): strip
the weight/style specification with re.sub(r':[^,]+', ''), then
replace '+' by spaces. -/
def googleCleanFamily (fam : String) : String :=
  String.mk ((stripColonAux false fam.data).map (fun c => if c = '+' then ' ' else c))

/-- Font names from Google-Fonts stylesheet links (lines 219-232). -/
def googleFontsOf (soup : List Node) : List String :=
  ((soupFindAll soup (fun n =>
      tagIs n "link" && strContainsSub (n.attrD "href" "") "fonts.googleapis.com")).map
    (fun link =>
      let href := link.attrD "href" ""
      if strContainsSub href "family=" then
        let family_part := (pySplit href "family=").getD 1 ""
        let family_part := (pySplit family_part "&").headD ""
        (pySplit family_part "|").map googleCleanFamily
      else [])).flatten

/-- re.sub(r'^[\'"]|[\'"]$', '', family): one leading and one trailing
quote (of either kind) are removed. -/
def stripQuotes (s : String) : String :=
  let cs := match s.data with
    | c :: t => if isQuoteChar c then t else c :: t
    | [] => []
  let cs := match cs.getLast? with
    | some c => if isQuoteChar c then cs.dropLast else cs
    | none => cs
  String.mk cs

/-- Splitting of one font-family declaration value into names (lines
242-249 and the identical inline/custom-property loops): split on
commas, strip, strip quotes, and drop empty names and the three
generic keywords excluded at this stage. -/
def splitFamilies (m : String) : List String :=
  ((pySplit m ",").map (fun f => stripQuotes (pyStrip f))).filter
    (fun f => f ≠ "" && !(["sans-serif", "serif", "monospace"].contains (pyLowerStr f)))

/-- The five font-name sources of identify_fonts, aggregated in
source order: Google-Fonts links, font-face rules, style tags, inline
styles, and font/typography custom properties. -/
def identifyFontsSources (soup : List Node) (html : String) : List String :=
  googleFontsOf soup
  ++ fontFaceCaptures html
  ++ ((styleTagStrings soup).map (fun s =>
       ((findallWith matchFontFamilyDecl s).map
         (fun cap => splitFamilies (String.mk cap))).flatten)).flatten
  ++ ((soupFindAll soup (fun n => (n.attr "style").isSome)).map (fun n =>
       let s := n.attrD "style" ""
       if strContainsSub s "font-family" then
         ((findallWith matchFontFamilyDecl s).map
           (fun cap => splitFamilies (String.mk cap))).flatten
       else [])).flatten
  ++ ((findallWith matchCssFontVar html).map
       (fun cap => splitFamilies (String.mk cap))).flatten

/-- design_elements.identify_fonts (lines 204-291): aggregate the five
sources in order, then normalise (strip, drop empties and the five
generic keywords case-insensitively), deduplicate and sort. -/
def identify_fonts (soup : List Node) (html : String) : List String :=
  let normalized_fonts := ((identifyFontsSources soup html).map pyStrip).filter (fun f =>
    f ≠ "" &&
    !(["sans-serif", "serif", "monospace", "cursive", "fantasy", ""].contains
        (pyLowerStr f)))
  sortBy strLeB normalized_fonts.dedup

/-! ## scraper/scraper.py — the field extractor -/

/-- An extracted field value: a scalar string, a list of strings, a
list of small records (the staff strategy), or a string-keyed mapping
(the social-links strategy).  There is no null constructor: every code
path of extract_field returns one of these. -/
inductive Value where
  | str : String → Value
  | arr : List String → Value
  | recs : List (List (String × String)) → Value
  | obj : List (String × String) → Value
deriving DecidableEq

/-- Python dict assignment d[k] = v: update in place if the key is
present, otherwise append (insertion order preserved). -/
def dictSet {α : Type} : List (String × α) → String → α → List (String × α)
  | [], k, v => [(k, v)]
  | kv :: t, k, v => if kv.1 = k then (k, v) :: t else kv :: dictSet t k v

/-- Python dict lookup d.get(k). -/
def dictLookup {α : Type} : List (String × α) → String → Option α
  | [], _ => none
  | kv :: t, k => if kv.1 = k then some kv.2 else dictLookup t k

/-! ### Business name (lines 81-99) -/

/-- The business-name strategy: the first h1 whose stripped text has
length strictly between 3 and 50; otherwise the first image whose
class matches /logo|brand/i, if it carries a truthy alt; otherwise the
page title (stripped, empty when absent). -/
def extractName (soup : List Node) : String :=
  let title := match soupFind soup (fun n => tagIs n "title") with
    | some t => pyStrip (getTextN t)
    | none => ""
  match (soupFindAll soup (fun n => tagIs n "h1")).find?
      (fun h => 3 < (pyStrip (getTextN h)).length && (pyStrip (getTextN h)).length < 50) with
  | some h => pyStrip (getTextN h)
  | none =>
    match soupFind soup (fun n => tagIs n "img" && attrMatchesCI n "class" ["logo", "brand"]) with
    | some logo =>
      match logo.attr "alt" with
      | some alt => if alt ≠ "" then alt else title
      | none => title
    | none => title

/-! ### Phone (lines 101-129) -/

/-- The phone strategy: for each pattern in order, findall over the
page text and return the first candidate passing is_valid_phone;
otherwise the first valid tel: link with the 'tel:' prefix text
removed; otherwise empty. -/
def extractPhone (soup : List Node) : String :=
  let text := getTextL soup
  match phone_patterns.findSome? (fun pat =>
      (((findallWith pat text).map String.mk).filter is_valid_phone).head?) with
  | some p => p
  | none =>
    match (((soupFindAll soup (fun n =>
        tagIs n "a" && strStartsWith (n.attrD "href" "") "tel:")).map
        (fun link => pyRemoveAll "tel:" (link.attrD "href" ""))).filter
        is_valid_phone).head? with
    | some p => p
    | none => ""

/-! ### Email (lines 131-149) -/

/-- The email strategy: the first mailto: link whose href, with every
'mailto:' occurrence removed and the query suffix split off at '?',
passes is_valid_email; otherwise the first valid free-text match of
the email pattern; otherwise empty. -/
def extractEmail (soup : List Node) : String :=
  match (((soupFindAll soup (fun n =>
      tagIs n "a" && strStartsWith (n.attrD "href" "") "mailto:")).map
      (fun link => (pySplit (pyRemoveAll "mailto:" (link.attrD "href" "")) "?").headD "")).filter
      is_valid_email).head? with
  | some e => e
  | none =>
    match (((findallWith matchEmail (getTextL soup)).map String.mk).filter
        is_valid_email).head? with
    | some e => e
    | none => ""

/-! ### Address (lines 151-181) -/

def address_cities : List String :=
  ["תל אביב", "ירושלים", "חיפה", "באר שבע", "רמת גן", "הרצליה", "נתניה",
   "פתח תקווה", "אשדוד", "אילת"]

/-- The address strategy: og:address-style meta content, else the
schema.org itemprop span, else the first p/div/span/address whose text
contains a known city with length in (10,100), else the first element
with an address/location class or id with length in (5,150). -/
def extractAddress (soup : List Node) : String :=
  let viaMeta : Option String :=
    match soupFind soup (fun n => tagIs n "meta" &&
        attrMatchesCS n "property" ["og:address", "place:location:address"]) with
    | some m => let c := m.attrD "content" ""
                if c ≠ "" then some c else none
    | none => none
  match viaMeta with
  | some c => c
  | none =>
    match soupFind soup (fun n => tagIs n "span" && n.attr "itemprop" = some "address") with
    | some sp => pyStrip (getTextN sp)
    | none =>
      match ((soupFindAll soup (fun n => tagAmong n ["p", "div", "span", "address"])).map
          (fun e => pyStrip (getTextN e))).find? (fun t =>
          address_cities.any (fun city => strContainsSub t city) &&
          t.length < 100 && 10 < t.length) with
      | some t => t
      | none =>
        let address_elems :=
          soupFindAll soup (fun n => attrMatchesCI n "class" ["address", "location"])
          ++ soupFindAll soup (fun n => attrMatchesCI n "id" ["address", "location"])
        match (address_elems.map (fun e => pyStrip (getTextN e))).find?
            (fun t => 5 < t.length && t.length < 150) with
        | some t => t
        | none => ""

/-! ### Opening hours (lines 183-215) -/

def hebrew_days : List String :=
  ["ראשון", "שני", "שלישי", "רביעי", "חמישי", "שישי", "שבת"]

/-- Line splitting of an hours blob: strip each line, drop blanks,
rejoin with newlines. -/
def formatHoursText (t : String) : String :=
  String.intercalate "\n" (((pySplit t "\n").map pyStrip).filter (fun l => l ≠ ""))

/-- The hours strategy: the first hours/time/schedule-classed element
whose stripped text contains a Hebrew day name and a clock time, with
its lines cleaned; else the first 3-8 row table where some row's first
cell mentions a day, rendered one line per non-empty row. -/
def extractHours (soup : List Node) : String :=
  let hours_elems :=
    soupFindAll soup (fun n => attrMatchesCI n "class" ["hours", "time", "schedule"])
    ++ soupFindAll soup (fun n => attrMatchesCI n "id" ["hours", "time", "schedule"])
  match (hours_elems.map (fun e => pyStrip (getTextN e))).find?
      (fun t => hebrew_days.any (fun d => strContainsSub t d) && hasTimePattern t) with
  | some t => formatHoursText t
  | none =>
    match (soupFindAll soup (fun n => tagIs n "table")).findSome? (fun table =>
      let rows := table.findAllIn (fun n => tagIs n "tr")
      if 3 ≤ rows.length && rows.length ≤ 8 then
        if rows.any (fun row =>
            let cells := row.findAllIn (fun n => tagAmong n ["td", "th"])
            !cells.isEmpty &&
            hebrew_days.any (fun d =>
              strContainsSub (getTextN (cells.headD (Node.text ""))) d)) then
          some (String.intercalate "\n" ((rows.map (fun row =>
            String.intercalate " " ((row.findAllIn (fun n => tagAmong n ["td", "th"])).map
              (fun cell => pyStrip (getTextN cell))))).filter (fun rt => rt ≠ "")))
        else none
      else none) with
    | some s => s
    | none => ""

/-! ### Staff / team (lines 217-269) -/

/-- The per-member email of the staff strategy: the child mailto link's
href with link['href'].replace('mailto:', '') applied — no query
stripping and no validation. -/
def teamEmailOfHref (href : String) : String := pyRemoveAll "mailto:" href

/-- Candidate member elements of one team section: card-like children,
or the section's list items when there are none. -/
def personsOf (sec : Node) : List Node :=
  let cards := sec.findAllIn (fun n =>
    attrMatchesCI n "class" ["card", "member", "person", "profile"])
  if cards.isEmpty then sec.findAllIn (fun n => tagIs n "li") else cards

/-- One member record: name from the first heading-like child, role
from a role/position/title-classed child or else a p/span distinct
from the name element, email from a mailto child; members without a
name are dropped. -/
def personRecord (person : Node) : Option (List (String × String)) :=
  let name_elem := person.findIn (fun n => tagAmong n ["h3", "h4", "h5", "strong", "b"])
  let name := match name_elem with
    | some ne => pyStrip (getTextN ne)
    | none => ""
  let role := match person.findIn (fun n =>
      attrMatchesCI n "class" ["role", "position", "title"]) with
    | some r => pyStrip (getTextN r)
    | none =>
      match person.findIn (fun n => tagAmong n ["p", "span"]) with
      | some r =>
        if (match name_elem with | some ne => !(beqN r ne) | none => true) then
          pyStrip (getTextN r)
        else ""
      | none => ""
  let email := match person.findIn (fun n =>
      tagIs n "a" && strStartsWith (n.attrD "href" "") "mailto:") with
    | some a => teamEmailOfHref (a.attrD "href" "")
    | none => ""
  if name ≠ "" then
    some ([("שם", name)]
      ++ (if role ≠ "" then [("תפקיד", role)] else [])
      ++ (if email ≠ "" then [("דוא\"ל", email)] else []))
  else none

def teamSections (soup : List Node) : List Node :=
  soupFindAll soup (fun n =>
    attrMatchesCI n "class" ["team", "staff", "personnel", "people", "about"])
  ++ soupFindAll soup (fun n =>
    attrMatchesCI n "id" ["team", "staff", "personnel", "people", "about"])

/-- The section loop: members accumulate across sections and the list
is returned as soon as it is non-empty after some section. -/
def teamLoopAux : List Node → List (List (String × String)) → List (List (String × String))
  | [], _ => []
  | s :: rest, team =>
    let team2 := team ++ (personsOf s).filterMap personRecord
    if team2.isEmpty then teamLoopAux rest team2 else team2

def extractTeam (soup : List Node) : List (List (String × String)) :=
  teamLoopAux (teamSections soup) []

/-! ### Social links (lines 271-299) -/

/-- The fixed platform-to-pattern table; the patterns are literal host
fragments (with alternation for twitter and whatsapp), so re.search
is substring containment. -/
def social_patterns : List (String × List String) :=
  [("facebook", ["facebook.com"]),
   ("twitter", ["twitter.com", "x.com"]),
   ("instagram", ["instagram.com"]),
   ("linkedin", ["linkedin.com"]),
   ("youtube", ["youtube.com"]),
   ("tiktok", ["tiktok.com"]),
   ("whatsapp", ["wa.me", "whatsapp.com"])]

/-- The platform a hyperlink is assigned to: the first platform in
table order whose pattern matches the href (the inner loop breaks on
the first match). -/
def socialPlatformOf (href : String) : Option String :=
  social_patterns.findSome? (fun pr =>
    if pr.2.any (fun nd => subOccurs nd.data href.data) then some pr.1 else none)

def docLinks (soup : List Node) : List Node :=
  soupFindAll soup (fun n => tagIs n "a" && (n.attr "href").isSome)

/-- Relative hrefs are resolved through the urljoin collaborator. -/
def resolveSocialHref (uj : String → String → String) (base href : String) : String :=
  if strStartsWith href "http://" || strStartsWith href "https://" then href
  else uj base href

/-- The social-links strategy: scan every hyperlink in document order
and assign it to its platform in the result dict. -/
def extractSocial (uj : String → String → String) (soup : List Node)
    (base : String) : List (String × String) :=
  (docLinks soup).foldl (fun sl n =>
    let href := n.attrD "href" ""
    match socialPlatformOf href with
    | some p => dictSet sl p (resolveSocialHref uj base href)
    | none => sl) []

/-! ### Business domain / specialty (lines 301-337) -/

def serviceKeywords : List String := ["שירותים", "תחומי", "התמחויות", "פעילות"]

/-- An h2/h3 whose .string matches the services/specialties keyword
pattern. -/
def isServiceHeader (n : Node) : Bool :=
  tagAmong n ["h2", "h3"] &&
  (match strOptN n with
   | some s => serviceKeywords.any (fun k => subOccurs k.data s.data)
   | none => false)

/-- header.find_next(['ul','div','section']) and the harvesting of the
found element: list items of a ul, or length-bounded p/h4/h5/span
texts of a div or section.  The pre-order index i locates the header
in the flattened document, and find_next scans the elements after it. -/
def domainsFromHeader (all : List Node) (i : Nat) : Option Value :=
  match (all.enum.drop (i + 1)).find? (fun p => tagAmong p.2 ["ul", "div", "section"]) with
  | some p =>
    let nx := p.2
    if tagIs nx "ul" then
      let services := (nx.findAllIn (fun m => tagIs m "li")).map
        (fun li => pyStrip (getTextN li))
      if !services.isEmpty then some (.arr services) else none
    else
      let services := ((nx.findAllIn (fun m => tagAmong m ["p", "h4", "h5", "span"])).map
        (fun it => pyStrip (getTextN it))).filter (fun t => 5 < t.length && t.length < 100)
      if !services.isEmpty then some (.arr services) else none
  | none => none

/-- The category/specialty strategy: comma-split meta keywords, else
services found under a matching header, else the meta description,
else empty.  Depending on the branch this returns a list or a string. -/
def extractDomains (soup : List Node) : Value :=
  let viaMeta : Option Value :=
    match soupFind soup (fun n => tagIs n "meta" && n.attr "name" = some "keywords") with
    | some mkw =>
      let content := mkw.attrD "content" ""
      if content ≠ "" then
        let keywords := (pySplit content ",").map pyStrip
        if !keywords.isEmpty then some (.arr keywords) else none
      else none
    | none => none
  match viaMeta with
  | some v => v
  | none =>
    let all := descendantsL soup
    match ((all.enum.filter (fun p => isServiceHeader p.2)).map (·.1)).findSome?
        (domainsFromHeader all) with
    | some v => v
    | none =>
      match soupFind soup (fun n => tagIs n "meta" && n.attr "name" = some "description") with
      | some md =>
        let content := md.attrD "content" ""
        if content ≠ "" then .str content else .str ""
      | none => .str ""

/-! ### The dispatcher (lines 69-340) -/

/-- scraper.extract_field: dispatch on the fixed field-name
vocabulary; any other name falls through to the empty string. -/
def extract_field (uj : String → String → String) (soup : List Node)
    (field_name base_url : String) : Value :=
  if field_name = "שם העסק" then .str (extractName soup)
  else if field_name = "טלפון" then .str (extractPhone soup)
  else if field_name = "דוא\"ל" ∨ field_name = "דוא'ל" ∨ field_name = "דוא״ל" then
    .str (extractEmail soup)
  else if field_name = "כתובת" then .str (extractAddress soup)
  else if field_name = "שעות פעילות" ∨ field_name = "שעות פתיחה" ∨ field_name = "שעות קבלה" then
    .str (extractHours soup)
  else if field_name = "צוות" ∨ field_name = "רופאים" then .recs (extractTeam soup)
  else if field_name = "קישורים לרשתות" then .obj (extractSocial uj soup base_url)
  else if field_name = "תחומי עיסוק" ∨ field_name = "תחום פעילות" ∨ field_name = "תחום התמחות" then
    extractDomains soup
  else .str ""

/-- The field names extract_field dispatches on. -/
def knownFieldNames : List String :=
  ["שם העסק", "טלפון", "דוא\"ל", "דוא'ל", "דוא״ל", "כתובת",
   "שעות פעילות", "שעות פתיחה", "שעות קבלה", "צוות", "רופאים",
   "קישורים לרשתות", "תחומי עיסוק", "תחום פעילות", "תחום התמחות"]

/-! ## scraper/scraper.py — the orchestrator -/

/-- The extracted-data loop of scrape_website lines 43-46: a dict
keyed by field name, filled in profile order. -/
def extractAll (uj : String → String → String) (soup : List Node)
    (fields : List String) (base_url : String) : List (String × Value) :=
  fields.foldl (fun m f => dictSet m f (extract_field uj soup f base_url)) []

/-- One entry of the design-elements dict. -/
inductive DesignVal where
  | colors : List String → DesignVal
  | logoUrl : Option String → DesignVal
  | fonts : List String → DesignVal

/-- scraper.scrape_website.  The fetch (requests.get plus
raise_for_status plus response.text) is an Except input and
BeautifulSoup is the parse collaborator.  The colour and logo toggles
reproduce two defects of the source faithfully: line 52 calls
extract_color_palette, a name defined nowhere in the module, so Python
raises a NameError, and on line 55 the imported extract_logo function
is shadowed by the boolean parameter of the same name, so Python
raises a TypeError; both are caught by the generic handler of line 65
and re-raised with the "Error during scraping" prefix.  A fetch
failure is caught on line 62 and re-raised with the "Failed to fetch
website" prefix; in both cases no data is returned. -/
def scrape_website (uj : String → String → String) (parse : String → List Node)
    (fetched : Except String String) (profile_fields : List String) (url : String)
    (extract_colors_opt extract_logo_opt extract_fonts_opt : Bool) :
    Except String (List (String × Value) × List (String × DesignVal)) :=
  match fetched with
  | .error e => .error ("Failed to fetch website: " ++ e)
  | .ok html =>
    let soup := parse html
    let extracted_data := extractAll uj soup profile_fields url
    if extract_colors_opt then
      .error "Error during scraping: name 'extract_color_palette' is not defined"
    else if extract_logo_opt then
      .error "Error during scraping: 'bool' object is not callable"
    else
      let design_elements :=
        if extract_fonts_opt then [("fonts", DesignVal.fonts (identify_fonts soup html))]
        else []
      .ok (extracted_data, design_elements)

/-! ## Specification-side definitions and concrete instances

The two definitions below transcribe claim wordings (not the source);
they exist to be compared with the source-derived definitions. -/

/-- The business-name strategy as claim C6 words it: the text of the
first H1 with stripped length in (3,50); else the alt text of the
first image whose class matches logo/brand AND whose alt text is
non-empty; else the page title. -/
def nameClaimC6 (soup : List Node) : String :=
  let title := match soupFind soup (fun n => tagIs n "title") with
    | some t => pyStrip (getTextN t)
    | none => ""
  match ((soupFindAll soup (fun n => tagIs n "h1")).map
      (fun h => pyStrip (getTextN h))).filter
      (fun t => 3 < t.length && t.length < 50) |>.head? with
  | some t => t
  | none =>
    match (soupFindAll soup (fun n => tagIs n "img" &&
        attrMatchesCI n "class" ["logo", "brand"] && n.attrD "alt" "" ≠ "")).head? with
    | some img => img.attrD "alt" ""
    | none => title

/-- The business-name strategy as amended: only the FIRST image whose
class matches logo/brand is examined, and its alt is used only when
truthy; later logo images are never considered. -/
def nameAmendedC6 (soup : List Node) : String :=
  let title := match soupFind soup (fun n => tagIs n "title") with
    | some t => pyStrip (getTextN t)
    | none => ""
  match ((soupFindAll soup (fun n => tagIs n "h1")).map
      (fun h => pyStrip (getTextN h))).filter
      (fun t => 3 < t.length && t.length < 50) |>.head? with
  | some t => t
  | none =>
    match (soupFindAll soup (fun n => tagIs n "img" &&
        attrMatchesCI n "class" ["logo", "brand"])).head? with
    | some img => if img.attrD "alt" "" ≠ "" then img.attrD "alt" "" else title
    | none => title

/-- A sample urljoin collaborator for closed evaluations (never applied
on the inputs below, whose hrefs are absolute). -/
def ujId : String → String → String := fun _ href => href

/-- A sample cssutils collaborator yielding no rules, for closed
evaluations of documents without style tags. -/
def cssParseNil : String → List (List (String × String)) := fun _ => []

/-- The field names whose strategy output always carries the type the
catalog declares (the four remaining catalog fields do not: the three
category fields can cross between list and string, and the colours
field has no strategy at all and yields a string). -/
def wellTypedFields : List String :=
  ["שם העסק", "טלפון", "דוא\"ל", "לוגו", "צוות", "כתובת", "שעות פעילות",
   "שעות קבלה", "שעות פתיחה", "קישורים לרשתות", "רופאים"]

/-- Does a value carry the catalog-declared type?  The string-like
tags string/email/url are all carried by strings; array by lists
(of strings or of records); object by a mapping. -/
def valueTypeOk : Value → String → Bool
  | .str _, t => t = "string" || t = "email" || t = "url"
  | .arr _, t => t = "array"
  | .recs _, t => t = "array"
  | .obj _, t => t = "object"

/-- Is a value the empty value of its shape (empty string, list,
record list or mapping)? -/
def isEmptyValue : Value → Bool
  | .str s => s = ""
  | .arr l => l.isEmpty
  | .recs l => l.isEmpty
  | .obj l => l.isEmpty

/-- A document with two hyperlinks to the same platform, for C3. -/
def c3doc : List Node :=
  [Node.elem "a" [("href", "https://facebook.com/first")] [],
   Node.elem "a" [("href", "https://facebook.com/second")] []]

/-- A document whose first logo-classed image has an empty alt and
whose second carries the name, for C6. -/
def c6doc : List Node :=
  [Node.elem "img" [("class", "logo"), ("alt", "")] [],
   Node.elem "img" [("class", "logo"), ("alt", "Acme")] []]

/-- A team section whose member has a mailto link with a query
suffix, for C10. -/
def c10doc : List Node :=
  [Node.elem "div" [("class", "team")]
    [Node.elem "li" []
      [Node.elem "h3" [] [Node.text "Dr A"],
       Node.elem "a" [("href", "mailto:info@x.co?subject=hi")] [Node.text "mail"]]]]

/-- A team member whose mailto href contains a second interior
'mailto:' occurrence, for the C10 counterexample. -/
def c10doc2 : List Node :=
  [Node.elem "div" [("class", "team")]
    [Node.elem "li" []
      [Node.elem "h3" [] [Node.text "Dr B"],
       Node.elem "a" [("href", "mailto:a@b.co?body=mailto:c@d.co")] [Node.text "m"]]]]

/-- A document with two inline-style colours, for the C2 witness. -/
def c2doc : List Node :=
  [Node.elem "div" [("style", "color: #123456; background: #abcdef")] []]

/-- A Google-Fonts stylesheet link whose family entry carries a
':400,700' weight specification, for C8. -/
def c8doc : List Node :=
  [Node.elem "link" [("href", "https://fonts.googleapis.com/css?family=Roboto:400,700")] []]

/-! ## Helper lemmas -/

theorem insertSorted_perm {α : Type} (le : α → α → Bool) (a : α) (l : List α) :
    (insertSorted le a l).Perm (a :: l) := by
  induction l with
  | nil => simp [insertSorted]
  | cons b t ih =>
    by_cases h : le a b = true
    · simp [insertSorted, h]
    · simp only [insertSorted, h, if_false, Bool.false_eq_true]
      exact (ih.cons b).trans (List.Perm.swap a b t)

theorem sortBy_perm {α : Type} (le : α → α → Bool) (l : List α) :
    (sortBy le l).Perm l := by
  induction l with
  | nil => simp [sortBy]
  | cons a t ih =>
    exact (insertSorted_perm le a (sortBy le t)).trans (ih.cons a)

theorem pairwise_insertSorted {α : Type} (le : α → α → Bool)
    (htrans : ∀ x y z, le x y = true → le y z = true → le x z = true)
    (htot : ∀ x y, le x y = true ∨ le y x = true)
    (a : α) (l : List α) (hl : l.Pairwise (fun x y => le x y = true)) :
    (insertSorted le a l).Pairwise (fun x y => le x y = true) := by
  induction l with
  | nil => simp [insertSorted]
  | cons b t ih =>
    rcases List.pairwise_cons.mp hl with ⟨hb, ht⟩
    by_cases h : le a b = true
    · simp only [insertSorted, h, if_true]
      refine List.pairwise_cons.mpr ⟨?_, hl⟩
      intro x hx
      rcases List.mem_cons.mp hx with rfl | hx
      · exact h
      · exact htrans a b x h (hb x hx)
    · have hba : le b a = true := (htot a b).resolve_left h
      simp only [insertSorted, h, if_false, Bool.false_eq_true]
      refine List.pairwise_cons.mpr ⟨?_, ih ht⟩
      intro x hx
      rcases List.mem_cons.mp ((insertSorted_perm le a t).mem_iff.mp hx) with rfl | hx
      · exact hba
      · exact hb x hx

theorem pairwise_sortBy {α : Type} (le : α → α → Bool)
    (htrans : ∀ x y z, le x y = true → le y z = true → le x z = true)
    (htot : ∀ x y, le x y = true ∨ le y x = true) (l : List α) :
    (sortBy le l).Pairwise (fun x y => le x y = true) := by
  induction l with
  | nil => simp [sortBy]
  | cons a t ih => exact pairwise_insertSorted le htrans htot a (sortBy le t) ih

theorem charsLeNat_total : ∀ as bs : List Char,
    charsLeNat as bs = true ∨ charsLeNat bs as = true := by
  intro as
  induction as with
  | nil => intro bs; left; simp [charsLeNat]
  | cons a at1 ih =>
    intro bs
    cases bs with
    | nil => right; simp [charsLeNat]
    | cons b bt =>
      by_cases h1 : a.toNat < b.toNat
      · left; simp [charsLeNat, h1]
      · by_cases h2 : b.toNat < a.toNat
        · right; simp [charsLeNat, h1, h2]
        · rcases ih bt with h | h
          · left; simp [charsLeNat, h1, h2, h]
          · right; simp [charsLeNat, h1, h2, h]

theorem charsLeNat_trans : ∀ as bs cs : List Char,
    charsLeNat as bs = true → charsLeNat bs cs = true → charsLeNat as cs = true := by
  intro as
  induction as with
  | nil => intro bs cs _ _; simp [charsLeNat]
  | cons a at1 ih =>
    intro bs cs h1 h2
    cases bs with
    | nil => simp [charsLeNat] at h1
    | cons b bt =>
      cases cs with
      | nil => simp [charsLeNat] at h2
      | cons c ct =>
        simp only [charsLeNat] at h1 h2 ⊢
        by_cases hab : a.toNat < b.toNat
        · by_cases hbc : b.toNat < c.toNat
          · simp [show a.toNat < c.toNat from by omega]
          · by_cases hcb : c.toNat < b.toNat
            · simp [hbc, hcb] at h2
            · simp [show a.toNat < c.toNat from by omega]
        · by_cases hba : b.toNat < a.toNat
          · simp [hab, hba] at h1
          · by_cases hbc : b.toNat < c.toNat
            · simp [show a.toNat < c.toNat from by omega]
            · by_cases hcb : c.toNat < b.toNat
              · simp [hbc, hcb] at h2
              · have hac : ¬ a.toNat < c.toNat := by omega
                have hca : ¬ c.toNat < a.toNat := by omega
                simp only [hab, hba, if_false] at h1
                simp only [hbc, hcb, if_false] at h2
                simp [hac, hca, ih bt ct h1 h2]

theorem strLeB_total (a b : String) : strLeB a b = true ∨ strLeB b a = true :=
  charsLeNat_total a.data b.data

theorem strLeB_trans (a b c : String) :
    strLeB a b = true → strLeB b c = true → strLeB a c = true :=
  charsLeNat_trans a.data b.data c.data

theorem hueLeB_total (x y : String × (ℚ × ℚ × ℚ)) :
    hueLeB x y = true ∨ hueLeB y x = true := by
  rcases le_total x.2.1 y.2.1 with h | h
  · left; simpa [hueLeB] using h
  · right; simpa [hueLeB] using h

theorem hueLeB_trans (x y z : String × (ℚ × ℚ × ℚ)) :
    hueLeB x y = true → hueLeB y z = true → hueLeB x z = true := by
  simp only [hueLeB, decide_eq_true_eq]
  exact le_trans

theorem satGeB_total (x y : String × (ℚ × ℚ × ℚ)) :
    satGeB x y = true ∨ satGeB y x = true := by
  rcases le_total x.2.2.1 y.2.2.1 with h | h
  · right; simpa [satGeB] using h
  · left; simpa [satGeB] using h

theorem satGeB_trans (x y z : String × (ℚ × ℚ × ℚ)) :
    satGeB x y = true → satGeB y z = true → satGeB x z = true := by
  simp only [satGeB, decide_eq_true_eq]
  intro h1 h2
  exact le_trans h2 h1

theorem head?_filter_eq_find? {α : Type} (p : α → Bool) (l : List α) :
    (l.filter p).head? = l.find? p := by
  induction l with
  | nil => rfl
  | cons a t ih =>
    by_cases h : p a = true
    · simp [List.filter, List.find?, h]
    · simp only [List.filter, List.find?, h, Bool.false_eq_true, if_false]
      rw [Bool.not_eq_true] at h
      simp [h, ih]

theorem dictLookup_dictSet_self {α : Type} (m : List (String × α)) (k : String) (v : α) :
    dictLookup (dictSet m k v) k = some v := by
  induction m with
  | nil => simp [dictSet, dictLookup]
  | cons kv t ih =>
    by_cases h : kv.1 = k
    · simp [dictSet, dictLookup, h]
    · simp [dictSet, dictLookup, h, ih]

theorem dictLookup_dictSet_ne {α : Type} (m : List (String × α)) (k k' : String) (v : α)
    (h : k' ≠ k) : dictLookup (dictSet m k v) k' = dictLookup m k' := by
  have h2 : ¬ k = k' := fun hh => h hh.symm
  induction m with
  | nil => simp [dictSet, dictLookup, h2]
  | cons kv t ih =>
    by_cases hk : kv.1 = k
    · simp [dictSet, dictLookup, hk, h2]
    · by_cases hk' : kv.1 = k'
      · simp [dictSet, dictLookup, hk, hk', h]
      · simp [dictSet, dictLookup, hk, hk', ih]

theorem keys_dictSet {α : Type} (m : List (String × α)) (k : String) (v : α) :
    (dictSet m k v).map Prod.fst =
      if k ∈ m.map Prod.fst then m.map Prod.fst else m.map Prod.fst ++ [k] := by
  induction m with
  | nil => simp [dictSet]
  | cons kv t ih =>
    by_cases hk : kv.1 = k
    · simp [dictSet, hk]
    · have hk2 : ¬ k = kv.1 := fun hh => hk hh.symm
      simp only [dictSet, hk, if_false, Bool.false_eq_true, List.map_cons, List.mem_cons]
      by_cases hmem : k ∈ t.map Prod.fst
      · simp [hmem, hk2, ih]
      · simp [hmem, hk2, ih]

theorem keys_dictSet_nodup {α : Type} (m : List (String × α)) (k : String) (v : α)
    (h : (m.map Prod.fst).Nodup) : ((dictSet m k v).map Prod.fst).Nodup := by
  rw [keys_dictSet]
  by_cases hmem : k ∈ m.map Prod.fst
  · simpa [hmem] using h
  · simp only [hmem, if_false]
    rw [List.nodup_append]
    exact ⟨h, List.nodup_singleton k, fun x hx hk => hmem ((List.mem_singleton.mp hk) ▸ hx)⟩

theorem dictSet_append_of_fresh {α : Type} (m : List (String × α)) (k : String) (v : α)
    (h : k ∉ m.map Prod.fst) : dictSet m k v = m ++ [(k, v)] := by
  induction m with
  | nil => simp [dictSet]
  | cons kv t ih =>
    simp only [List.map_cons, List.mem_cons, not_or] at h
    have hk : ¬ kv.1 = k := fun hh => h.1 hh.symm
    simp [dictSet, hk, ih h.2]

theorem foldl_dictSet_fresh {α : Type} (g : String → α) :
    ∀ (fs : List String) (m : List (String × α)), fs.Nodup →
    (∀ f ∈ fs, f ∉ m.map Prod.fst) →
    fs.foldl (fun acc f => dictSet acc f (g f)) m = m ++ fs.map (fun f => (f, g f)) := by
  intro fs
  induction fs with
  | nil => intro m _ _; simp
  | cons f ft ih =>
    intro m hnd hfresh
    have hstep : dictSet m f (g f) = m ++ [(f, g f)] :=
      dictSet_append_of_fresh m f (g f) (hfresh f (List.mem_cons_self f ft))
    simp only [List.foldl_cons, hstep]
    rw [ih (m ++ [(f, g f)]) (List.Nodup.of_cons hnd)]
    · simp
    · intro x hx
      simp only [List.map_append, List.mem_append, List.map_cons, List.map_nil,
        List.mem_singleton, not_or]
      refine ⟨hfresh x (List.mem_cons_of_mem f hx), ?_⟩
      intro hxf
      subst hxf
      exact (List.nodup_cons.mp hnd).1 hx

theorem dictLookup_map_self {α : Type} (g : String → α) :
    ∀ (fs : List String) (f : String), f ∈ fs →
    dictLookup (fs.map (fun x => (x, g x))) f = some (g f) := by
  intro fs
  induction fs with
  | nil => intro f hf; cases hf
  | cons x xt ih =>
    intro f hf
    by_cases hx : x = f
    · simp [dictLookup, hx]
    · rcases List.mem_cons.mp hf with rfl | hf
      · exact absurd rfl hx
      · simp [dictLookup, hx, ih f hf]

/-- With distinct field names, the extracted-data dict is exactly the
field list zipped with the per-field extraction results. -/
theorem extractAll_eq_map (uj : String → String → String) (soup : List Node)
    (fields : List String) (url : String) (hnd : fields.Nodup) :
    extractAll uj soup fields url
      = fields.map (fun f => (f, extract_field uj soup f url)) := by
  unfold extractAll
  rw [foldl_dictSet_fresh (fun f => extract_field uj soup f url) fields [] hnd
    (by intro f _; simp)]
  simp

theorem isPrefixOf_append_self : ∀ l r : List Char, l.isPrefixOf (l ++ r) = true := by
  intro l
  induction l with
  | nil => intro r; simp [List.isPrefixOf]
  | cons a t ih => intro r; simp [List.isPrefixOf, ih]

theorem subOccurs_false_removeAux (nd : List Char) :
    ∀ (fuel : Nat) (cs : List Char), cs.length ≤ fuel → subOccurs nd cs = false →
    pyRemoveAllAux nd fuel cs = cs := by
  intro fuel
  induction fuel with
  | zero =>
    intro cs hlen _
    cases cs with
    | nil => rfl
    | cons c t => simp at hlen
  | succ f ih =>
    intro cs hlen hno
    cases cs with
    | nil => rfl
    | cons c t =>
      rw [subOccurs, Bool.or_eq_false_iff] at hno
      simp only [pyRemoveAllAux, hno.1, Bool.and_false, Bool.false_eq_true, if_false]
      rw [ih t (by simpa using Nat.le_of_succ_le_succ hlen) hno.2]

theorem removeAux_strip (nd rest : List Char) (fuel : Nat) (hnd : nd ≠ [])
    (hf : nd.length + rest.length ≤ fuel) (hno : subOccurs nd rest = false) :
    pyRemoveAllAux nd fuel (nd ++ rest) = rest := by
  cases nd with
  | nil => exact absurd rfl hnd
  | cons n0 nt =>
    cases fuel with
    | zero => simp at hf
    | succ f =>
      have hcons : (n0 :: nt) ++ rest = n0 :: (nt ++ rest) := rfl
      rw [hcons]
      have hpre : (n0 :: nt).isPrefixOf (n0 :: (nt ++ rest)) = true := by
        rw [← hcons]; exact isPrefixOf_append_self (n0 :: nt) rest
      have hcond : (decide ((n0 :: nt) ≠ []) && (n0 :: nt).isPrefixOf (n0 :: (nt ++ rest))) = true := by
        simp [hpre]
      simp only [pyRemoveAllAux, hcond, if_true]
      rw [← hcons, List.drop_left]
      exact subOccurs_false_removeAux (n0 :: nt) f rest
        (by simp only [List.length_cons] at hf; omega) hno

/-- With no interior occurrence of 'mailto:', the staff strategy's
replace amounts to removing the prefix. -/
theorem teamEmail_prefix_strip (s : String)
    (h : subOccurs "mailto:".data s.data = false) :
    teamEmailOfHref ("mailto:" ++ s) = s := by
  cases s with
  | mk l =>
    show String.mk (pyRemoveAllAux "mailto:".data
      ("mailto:" ++ String.mk l).data.length ("mailto:" ++ String.mk l).data) = String.mk l
    have hdata : ("mailto:" ++ String.mk l).data = "mailto:".data ++ l := rfl
    rw [hdata, removeAux_strip "mailto:".data l _ (by decide) (by simp; omega) h]

theorem sort_colors_perm (colors : List String) :
    (sort_colors_by_distinctiveness colors).Perm colors := by
  simp only [sort_colors_by_distinctiveness]
  have hperm := sortBy_perm hueLeB (colors.map (fun c => (c, hsvOfColor c)))
  split
  case h_1 heq =>
    rw [heq] at hperm
    have hmap : colors.map (fun c => (c, hsvOfColor c)) = [] := hperm.symm.eq_nil
    rw [List.map_eq_nil_iff] at hmap
    simp [hmap]
  case h_2 first remaining heq =>
    rw [heq] at hperm
    have h2 : ((sortBy satGeB remaining).map (·.1)).Perm (remaining.map (·.1)) :=
      (sortBy_perm satGeB remaining).map _
    have h3 : (first.1 :: (sortBy satGeB remaining).map (·.1)).Perm
        ((first :: remaining).map (·.1)) := by
      simpa using h2.cons first.1
    have h4 : ((first :: remaining).map (·.1)).Perm
        ((colors.map (fun c => (c, hsvOfColor c))).map (·.1)) := hperm.map _
    have h5 : (colors.map (fun c => (c, hsvOfColor c))).map (·.1) = colors := by
      rw [List.map_map]
      exact List.map_id' colors
    exact h3.trans (h5 ▸ h4)

theorem extractSocial_eq_foldl_hrefs (uj : String → String → String)
    (soup : List Node) (base : String) :
    extractSocial uj soup base =
      ((docLinks soup).map (fun n => n.attrD "href" "")).foldl
        (fun sl href => match socialPlatformOf href with
          | some q => dictSet sl q (resolveSocialHref uj base href)
          | none => sl) [] := by
  rw [List.foldl_map]
  rfl

theorem social_lookup_aux (uj : String → String → String) (base p : String) :
    ∀ (hs : List String) (m : List (String × String)),
    dictLookup (hs.foldl (fun sl href => match socialPlatformOf href with
      | some q => dictSet sl q (resolveSocialHref uj base href)
      | none => sl) m) p
    = (match (hs.filter (fun h => socialPlatformOf h = some p)).getLast? with
       | some h => some (resolveSocialHref uj base h)
       | none => dictLookup m p) := by
  intro hs
  induction hs with
  | nil => intro m; simp
  | cons h t ih =>
    intro m
    simp only [List.foldl_cons, List.filter_cons]
    by_cases hq : socialPlatformOf h = some p
    · simp only [hq, decide_eq_true_eq, if_pos hq]
      rw [ih (dictSet m p (resolveSocialHref uj base h))]
      cases hl : (t.filter (fun x => socialPlatformOf x = some p)).getLast? with
      | some x => simp [List.getLast?_cons, hl]
      | none => simp [List.getLast?_cons, hl, dictLookup_dictSet_self]
    · rw [if_neg (by simpa using hq)]
      cases hp : socialPlatformOf h with
      | none => exact ih m
      | some q =>
        have hqp : p ≠ q := by
          intro hh
          subst hh
          exact hq hp
        rw [ih (dictSet m q (resolveSocialHref uj base h))]
        cases hl : (t.filter (fun x => socialPlatformOf x = some p)).getLast? with
        | some x => simp [hl]
        | none => simp [hl, dictLookup_dictSet_ne m q p _ hqp]

theorem social_keys_aux (uj : String → String → String) (base : String) :
    ∀ (hs : List String) (m : List (String × String)), (m.map Prod.fst).Nodup →
    (((hs.foldl (fun sl href => match socialPlatformOf href with
      | some q => dictSet sl q (resolveSocialHref uj base href)
      | none => sl) m)).map Prod.fst).Nodup := by
  intro hs
  induction hs with
  | nil => intro m hm; simpa using hm
  | cons h t ih =>
    intro m hm
    simp only [List.foldl_cons]
    cases hp : socialPlatformOf h with
    | none => exact ih m hm
    | some q => exact ih _ (keys_dictSet_nodup m q _ hm)

theorem head?_filter_map {α β : Type} (f : α → β) (q : β → Bool) (l : List α) :
    ((l.map f).filter q).head? = (l.find? (fun x => q (f x))).map f := by
  rw [List.filter_map, List.head?_map, head?_filter_eq_find?]
  rfl

theorem extract_field_unknown (uj : String → String → String) (soup : List Node)
    (f url : String) (h : f ∉ knownFieldNames) :
    extract_field uj soup f url = .str "" := by
  simp only [knownFieldNames, List.mem_cons, not_or, List.not_mem_nil, not_false_eq_true,
    and_true] at h
  obtain ⟨h1, h2, h3, h4, h5, h6, h7, h8, h9, h10, h11, h12, h13, h14, h15⟩ := h
  simp [extract_field, h1, h2, h3, h4, h5, h6, h7, h8, h9, h10, h11, h12, h13, h14, h15]

theorem extract_field_wellTyped (uj : String → String → String) (soup : List Node)
    (url : String) : ∀ f ∈ wellTypedFields, ∃ t, fieldTypeOf f = some t ∧
    valueTypeOk (extract_field uj soup f url) t = true := by
  intro f hf
  fin_cases hf
  · exact ⟨"string", rfl, rfl⟩
  · exact ⟨"string", rfl, rfl⟩
  · exact ⟨"email", rfl, rfl⟩
  · exact ⟨"url", rfl, rfl⟩
  · exact ⟨"array", rfl, rfl⟩
  · exact ⟨"string", rfl, rfl⟩
  · exact ⟨"string", rfl, rfl⟩
  · exact ⟨"string", rfl, rfl⟩
  · exact ⟨"string", rfl, rfl⟩
  · exact ⟨"object", rfl, rfl⟩
  · exact ⟨"array", rfl, rfl⟩

/-! ## The claims -/

/-- C4: for every invocation where the fetch fails, the scrape
surfaces an error whose message is the human-readable fetch cause
prefixed by "Failed to fetch website: ", and returns no
ExtractionResult and no DesignInfo — the error constructor carries no
partial data of any kind. -/
theorem c4_fetch_error_all_or_nothing (uj : String → String → String)
    (parse : String → List Node) (profile_fields : List String) (url e : String)
    (dC dL dF : Bool) :
    scrape_website uj parse (Except.error e) profile_fields url dC dL dF
      = Except.error ("Failed to fetch website: " ++ e) := rfl

/-- C8 (code bug): a Google-Fonts family entry 'Roboto:400,700' does
NOT contribute the name 'Roboto': the substitution re.sub(r':[^,]+','')
stops at the comma, so the font list carries 'Roboto,700' with the
',700' weight tail left in place, contradicting both the spec and the
source's own comment "Remove weight/style specifications". -/
theorem c8_google_fonts_suffix_bug :
    identify_fonts c8doc "" = ["Roboto,700"] ∧ ("Roboto,700" : String) ≠ "Roboto" := by
  exact ⟨by decide, by decide⟩

/-- C5: the field extractor is total over the embedding — every field
name outside the fixed vocabulary yields the empty string on any
document, and on a document where nothing is found (the empty
document) every field name yields the empty value of its shape. -/
theorem c5_extract_field_total (uj : String → String → String) (soup : List Node)
    (f url : String) :
    (f ∉ knownFieldNames → extract_field uj soup f url = .str "")
    ∧ isEmptyValue (extract_field uj [] f url) = true := by
  constructor
  · exact extract_field_unknown uj soup f url
  · by_cases hf : f ∈ knownFieldNames
    · fin_cases hf <;> rfl
    · rw [extract_field_unknown uj [] f url hf]; rfl

theorem c5_extract_field_total_witness :
    extract_field ujId c10doc "מחיר" "https://x.co" = .str ""
    ∧ isEmptyValue (extract_field ujId [] "מחיר" "https://x.co") = true :=
  ⟨(c5_extract_field_total ujId c10doc "מחיר" "https://x.co").1 (by decide),
   (c5_extract_field_total ujId c10doc "מחיר" "https://x.co").2⟩

/-- C1 (counterexample): on the law-firm profile the successful scrape
maps the field צבעים דומיננטיים (declared array in the catalog) to the
empty STRING — a value not of the declared type, refuting the typing
clause of the claim. -/
theorem c1_declared_type_counterexample :
    dictLookup (extractAll ujId [] law_firm_profile.fields "https://x.co") "צבעים דומיננטיים"
      = some (Value.str "")
    ∧ fieldTypeOf "צבעים דומיננטיים" = some "array"
    ∧ valueTypeOk (Value.str "") "array" = false := by
  exact ⟨by decide, by decide, by decide⟩

/-- C1 (amended): for distinct profile field names, the
ExtractionResult's keys are exactly the field sequence in order and
every field maps to the (non-null) result of its strategy; the values
of the eleven well-typed catalog fields carry their declared types,
while the three category fields and the colours field may not. -/
theorem c1_extraction_result_amended (uj : String → String → String) (soup : List Node)
    (fields : List String) (url : String) (hnd : fields.Nodup) :
    (extractAll uj soup fields url).map Prod.fst = fields
    ∧ (∀ f ∈ fields, dictLookup (extractAll uj soup fields url) f
        = some (extract_field uj soup f url))
    ∧ (∀ f ∈ wellTypedFields, ∃ t, fieldTypeOf f = some t ∧
        valueTypeOk (extract_field uj soup f url) t = true) := by
  refine ⟨?_, ?_, extract_field_wellTyped uj soup url⟩
  · rw [extractAll_eq_map uj soup fields url hnd, List.map_map]
    have hcomp : (Prod.fst ∘ fun f : String => (f, extract_field uj soup f url))
        = fun f => f := rfl
    rw [hcomp, List.map_id']
  · intro f hf
    rw [extractAll_eq_map uj soup fields url hnd]
    exact dictLookup_map_self _ fields f hf

theorem c1_extraction_result_amended_witness :
    (extractAll ujId [] ["שם העסק"] "https://x.co").map Prod.fst = ["שם העסק"]
    ∧ (∀ f ∈ ["שם העסק"], dictLookup (extractAll ujId [] ["שם העסק"] "https://x.co") f
        = some (extract_field ujId [] f "https://x.co"))
    ∧ (∀ f ∈ wellTypedFields, ∃ t, fieldTypeOf f = some t ∧
        valueTypeOk (extract_field ujId [] f "https://x.co") t = true) :=
  c1_extraction_result_amended ujId [] ["שם העסק"] "https://x.co" (List.nodup_singleton _)

/-- C2 (counterexample): with no colours in the styles and a
custom-property declaration carrying pure black, the fallback path
appends '#000000' after the blacklist filter has already run, so the
returned palette contains a blacklisted colour. -/
theorem c2_fallback_blacklist_counterexample :
    extract_colors cssParseNil [] "--primary-color: #000000;" 5 = ["#000000"]
    ∧ "#000000" ∈ color_blacklist := by
  exact ⟨by decide, by decide⟩

/-- C2 (amended): the palette length never exceeds the configured
maximum; and whenever the custom-property fallback does not fire
(at least two colours survived the main path), the palette is
deduplicated and free of the blacklist.  When the fallback fires it
appends colours with neither check, as the counterexample shows. -/
theorem c2_palette_invariants_amended (cssParse : String → List (List (String × String)))
    (soup : List Node) (html : String) (m : Nat) :
    (extract_colors cssParse soup html m).length ≤ m
    ∧ (2 ≤ (filteredColors cssParse soup).length →
        (extract_colors cssParse soup html m).Nodup
        ∧ ∀ c ∈ extract_colors cssParse soup html m, c ∉ color_blacklist) := by
  constructor
  · simp only [extract_colors]
    split
    · apply List.length_take_le
    · apply List.length_take_le
  · intro h2
    have hid : colorsWithFallback cssParse soup html = filteredColors cssParse soup := by
      unfold colorsWithFallback
      rw [if_neg (by omega)]
    have hnd : (filteredColors cssParse soup).Nodup :=
      List.Nodup.filter _ (List.nodup_dedup _)
    constructor
    · simp only [extract_colors]
      rw [hid]
      split
      · exact List.Nodup.sublist (List.take_sublist _ _)
          ((sort_colors_perm _).nodup_iff.mpr hnd)
      · exact List.Nodup.sublist (List.take_sublist _ _) hnd
    · intro c hc
      simp only [extract_colors] at hc
      rw [hid] at hc
      have hcf : c ∈ filteredColors cssParse soup := by
        split at hc
        · exact (sort_colors_perm _).mem_iff.mp (List.take_subset _ _ hc)
        · exact List.take_subset _ _ hc
      unfold filteredColors at hcf
      have hcond := (List.mem_filter.mp hcf).2
      intro hmem
      simp only [Bool.not_eq_true'] at hcond
      fin_cases hmem <;> exact absurd hcond (by decide)

theorem c2_palette_invariants_amended_witness :
    (extract_colors cssParseNil c2doc "" 5).length ≤ 5
    ∧ ((extract_colors cssParseNil c2doc "" 5).Nodup
        ∧ ∀ c ∈ extract_colors cssParseNil c2doc "" 5, c ∉ color_blacklist) :=
  ⟨(c2_palette_invariants_amended cssParseNil c2doc "" 5).1,
   (c2_palette_invariants_amended cssParseNil c2doc "" 5).2 (by decide)⟩

/-- C3 (counterexample): with two facebook links in document order the
strategy keeps the SECOND one — later matches overwrite earlier ones
in the dict — refuting the claimed first-match-wins rule, whose
prediction is the first filtered href. -/
theorem c3_first_match_counterexample :
    (((docLinks c3doc).map (fun n => n.attrD "href" "")).filter
        (fun h => socialPlatformOf h = some "facebook")).head?
      = some "https://facebook.com/first"
    ∧ dictLookup (extractSocial ujId c3doc "https://base.example") "facebook"
      = some "https://facebook.com/second"
    ∧ ("https://facebook.com/second" : String) ≠ "https://facebook.com/first" := by
  exact ⟨by decide, by decide, by decide⟩

/-- C3 (amended): the social-links strategy keeps at most one URL per
platform (the keys of the result are distinct), each hyperlink is
assigned to at most one platform — the first in table order whose
pattern its href matches — and for every platform the URL kept is the
resolved href of the LAST matching hyperlink in document order. -/
theorem c3_social_links_amended (uj : String → String → String) (soup : List Node)
    (base p : String) :
    dictLookup (extractSocial uj soup base) p
      = ((((docLinks soup).map (fun n => n.attrD "href" "")).filter
          (fun h => socialPlatformOf h = some p)).getLast?).map (resolveSocialHref uj base)
    ∧ ((extractSocial uj soup base).map Prod.fst).Nodup := by
  constructor
  · rw [extractSocial_eq_foldl_hrefs, social_lookup_aux]
    cases hl : (((docLinks soup).map (fun n => n.attrD "href" "")).filter
        (fun h => socialPlatformOf h = some p)).getLast? with
    | some x => simp [hl]
    | none => simp [hl, dictLookup]
  · rw [extractSocial_eq_foldl_hrefs]
    exact social_keys_aux uj base _ [] (by simp)

/-- C6 (counterexample): with two logo-classed images where only the
second has a non-empty alt, the code returns the (empty) title: only
the FIRST matching image is ever examined, while the claim as stated
predicts the alt of the first matching image with non-empty alt. -/
theorem c6_logo_alt_counterexample :
    extractName c6doc = "" ∧ nameClaimC6 c6doc = "Acme" ∧ ("" : String) ≠ "Acme" := by
  exact ⟨by decide, by decide, by decide⟩

/-- C6 (amended): the business-name strategy equals the cascade that
takes the first H1 with stripped length strictly between 3 and 50,
else examines only the FIRST logo/brand-classed image and uses its alt
only when non-empty, else the page title. -/
theorem c6_business_name_amended (soup : List Node) :
    extractName soup = nameAmendedC6 soup := by
  simp only [extractName, nameAmendedC6]
  rw [head?_filter_map]
  cases hf : (soupFindAll soup (fun n => tagIs n "h1")).find?
      (fun h => 3 < (pyStrip (getTextN h)).length && (pyStrip (getTextN h)).length < 50) with
  | some h => simp [hf]
  | none =>
    simp only [hf, Option.map_none']
    have hsame : (soupFindAll soup (fun n =>
        tagIs n "img" && attrMatchesCI n "class" ["logo", "brand"])).head?
        = soupFind soup (fun n => tagIs n "img" && attrMatchesCI n "class" ["logo", "brand"]) := by
      simp only [soupFindAll, soupFind]
      exact head?_filter_eq_find? _ _
    rw [hsame]
    cases hlogo : soupFind soup
        (fun n => tagIs n "img" && attrMatchesCI n "class" ["logo", "brand"]) with
    | some logo =>
      cases halt : logo.attr "alt" with
      | some alt => by_cases ha : alt = "" <;> simp [hlogo, Node.attrD, halt, ha]
      | none => simp [hlogo, Node.attrD, halt]
    | none => simp [hlogo]

/-- C7: the font list is sorted lexicographically ascending (by code
points, Python's string order), has no duplicates, and contains no
generic family keyword (case-insensitively) and no empty string. -/
theorem c7_font_list_invariants (soup : List Node) (html : String) :
    List.Sorted (fun a b => strLeB a b = true) (identify_fonts soup html)
    ∧ (identify_fonts soup html).Nodup
    ∧ ∀ f ∈ identify_fonts soup html, f ≠ ""
        ∧ pyLowerStr f ∉ ["serif", "sans-serif", "monospace", "cursive", "fantasy"] := by
  refine ⟨?_, ?_, ?_⟩
  · exact pairwise_sortBy strLeB strLeB_trans strLeB_total _
  · exact ((sortBy_perm strLeB _).nodup_iff).mpr (List.nodup_dedup _)
  · intro f hf
    have hf2 : f ∈ ((identifyFontsSources soup html).map pyStrip).filter (fun g =>
        g ≠ "" && !(["sans-serif", "serif", "monospace", "cursive", "fantasy", ""].contains
          (pyLowerStr g))) := by
      exact List.mem_dedup.mp ((sortBy_perm strLeB _).mem_iff.mp hf)
    have hcond := (List.mem_filter.mp hf2).2
    rw [Bool.and_eq_true] at hcond
    refine ⟨by simpa using hcond.1, ?_⟩
    intro hmem
    have hcon := hcond.2
    simp only [Bool.not_eq_true'] at hcon
    have hmem6 : pyLowerStr f ∈
        ["sans-serif", "serif", "monospace", "cursive", "fantasy", ""] := by
      simp only [List.mem_cons, List.mem_singleton] at hmem ⊢
      tauto
    have htrue : (["sans-serif", "serif", "monospace", "cursive", "fantasy",
        ""].contains (pyLowerStr f)) = true := List.elem_eq_true_of_mem hmem6
    rw [htrue] at hcon
    cases hcon

/-- C9: for at least two surviving colours, the ranking outputs a
permutation of the input whose first element has minimal hue among all
inputs and whose remaining elements are the other input colours sorted
by descending saturation. -/
theorem c9_palette_ranking (colors : List String) (h : 2 ≤ colors.length) :
    (sort_colors_by_distinctiveness colors).Perm colors
    ∧ ∃ c0 cs, sort_colors_by_distinctiveness colors = c0 :: cs
        ∧ (∀ c ∈ colors, hueOf c0 ≤ hueOf c)
        ∧ List.Sorted (fun a b => satOf b ≤ satOf a) cs
        ∧ cs.Perm (colors.erase c0) := by
  refine ⟨sort_colors_perm colors, ?_⟩
  have hperm := sortBy_perm hueLeB (colors.map (fun c => (c, hsvOfColor c)))
  have hpw := pairwise_sortBy hueLeB hueLeB_trans hueLeB_total
    (colors.map (fun c => (c, hsvOfColor c)))
  have hlen : 0 < (sortBy hueLeB (colors.map (fun c => (c, hsvOfColor c)))).length := by
    rw [hperm.length_eq, List.length_map]
    omega
  obtain ⟨first, remaining, heq⟩ : ∃ a l,
      sortBy hueLeB (colors.map (fun c => (c, hsvOfColor c))) = a :: l := by
    cases hsb : sortBy hueLeB (colors.map (fun c => (c, hsvOfColor c))) with
    | nil => rw [hsb] at hlen; simp at hlen
    | cons a l => exact ⟨a, l, rfl⟩
  rw [heq] at hperm hpw
  have hout : sort_colors_by_distinctiveness colors
      = first.1 :: (sortBy satGeB remaining).map (·.1) := by
    simp only [sort_colors_by_distinctiveness, heq]
  refine ⟨first.1, (sortBy satGeB remaining).map (·.1), hout, ?_, ?_, ?_⟩
  · intro c hc
    have hmemtup : (c, hsvOfColor c) ∈ colors.map (fun c => (c, hsvOfColor c)) :=
      List.mem_map_of_mem _ hc
    rcases List.mem_cons.mp (hperm.symm.mem_iff.mp hmemtup) with hfe | hmem
    · rw [← hfe]
    · have hle := (List.pairwise_cons.mp hpw).1 _ hmem
      have hfs : first ∈ colors.map (fun c => (c, hsvOfColor c)) :=
        hperm.mem_iff.mp (List.mem_cons_self first remaining)
      obtain ⟨c0x, _, hc0⟩ := List.mem_map.mp hfs
      rw [← hc0]
      rw [← hc0] at hle
      simpa [hueLeB, hueOf] using hle
  · have hpw2 := pairwise_sortBy satGeB satGeB_trans satGeB_total remaining
    have hshape : ∀ x ∈ sortBy satGeB remaining, x.2 = hsvOfColor x.1 := by
      intro x hx
      have hx2 : x ∈ remaining := (sortBy_perm satGeB remaining).mem_iff.mp hx
      have hx4 : x ∈ colors.map (fun c => (c, hsvOfColor c)) :=
        hperm.mem_iff.mp (List.mem_cons_of_mem _ hx2)
      obtain ⟨cx, _, hcx⟩ := List.mem_map.mp hx4
      rw [← hcx]
    show List.Pairwise (fun a b => satOf b ≤ satOf a)
      ((sortBy satGeB remaining).map (·.1))
    rw [List.pairwise_map]
    refine List.Pairwise.imp_of_mem ?_ hpw2
    intro a b ha hb hab
    have hsa := hshape a ha
    have hsb := hshape b hb
    simp only [satGeB, decide_eq_true_eq] at hab
    show (hsvOfColor b.1).2.1 ≤ (hsvOfColor a.1).2.1
    rw [← hsa, ← hsb]
    exact hab
  · have hperm2 : (first.1 :: (sortBy satGeB remaining).map (·.1)).Perm colors := by
      rw [← hout]
      exact sort_colors_perm colors
    exact (List.cons_perm_iff_perm_erase.mp hperm2).2

theorem c9_palette_ranking_witness :
    (sort_colors_by_distinctiveness ["#ff0000", "#00ff00"]).Perm ["#ff0000", "#00ff00"]
    ∧ ∃ c0 cs, sort_colors_by_distinctiveness ["#ff0000", "#00ff00"] = c0 :: cs
        ∧ (∀ c ∈ ["#ff0000", "#00ff00"], hueOf c0 ≤ hueOf c)
        ∧ List.Sorted (fun a b => satOf b ≤ satOf a) cs
        ∧ cs.Perm (["#ff0000", "#00ff00"].erase c0) :=
  c9_palette_ranking ["#ff0000", "#00ff00"] (by decide)

/-- C10 (counterexample): the staff strategy applies
href.replace('mailto:', '') — EVERY occurrence is removed, not only
the prefix, so an interior 'mailto:' inside the query disappears,
refuting the claim that the href is kept verbatim minus the prefix. -/
theorem c10_team_email_counterexample :
    extractTeam c10doc2 = [[("שם", "Dr B"), ("דוא\"ל", "a@b.co?body=c@d.co")]]
    ∧ ("a@b.co?body=c@d.co" : String) ≠ "a@b.co?body=mailto:c@d.co" := by
  exact ⟨by decide, by decide⟩

/-- C10 (amended): the staff member's email is the child mailto href
with every occurrence of 'mailto:' removed — equal to plain prefix
removal whenever 'mailto:' occurs only as the prefix — keeping any
query suffix and applying no validation; the standalone email strategy
on the same document instead splits the suffix off at '?' and accepts
only validator-approved values. -/
theorem c10_team_email_amended (s : String)
    (h : subOccurs "mailto:".data s.data = false) :
    teamEmailOfHref ("mailto:" ++ s) = s
    ∧ extractTeam c10doc = [[("שם", "Dr A"), ("דוא\"ל", "info@x.co?subject=hi")]]
    ∧ is_valid_email "info@x.co?subject=hi" = false
    ∧ extract_field ujId c10doc "דוא\"ל" "https://x.co" = .str "info@x.co" := by
  exact ⟨teamEmail_prefix_strip s h, by decide, by decide, by decide⟩

theorem c10_team_email_amended_witness :
    teamEmailOfHref ("mailto:" ++ "info@x.co?subject=hi") = "info@x.co?subject=hi"
    ∧ extractTeam c10doc = [[("שם", "Dr A"), ("דוא\"ל", "info@x.co?subject=hi")]]
    ∧ is_valid_email "info@x.co?subject=hi" = false
    ∧ extract_field ujId c10doc "דוא\"ל" "https://x.co" = .str "info@x.co" :=
  c10_team_email_amended "info@x.co?subject=hi" (by decide)
